import Mathlib

/-!
Verification of the `cargo-pprof` pipeline (src/main.rs) against its
natural-language specification.

The development is a shallow embedding of the program:

* The fragment of `std::path` (Unix semantics) that the program uses —
  `Path::parent` and `Path::join` — is embedded at the level of character
  lists (`String.data`), following the component-based semantics of the
  Rust standard library: repeated separators and trailing separators are
  ignored, `.` segments are dropped except at the start of a relative
  path, a leading `/` is a root component, and `parent` drops the last
  non-root component (returning `none` for the empty path and for the
  root).
* The build-event parsing step (`serde_json::from_str::<CompilerMessage>`
  applied line by line, `flat_map` + `last`) is embedded with the JSON
  deserializer abstracted as a function `String → Option CompilerMessage`;
  a line "parses as a record with a present executable field" exactly when
  that function succeeds, since `executable` is the sole (mandatory) field
  of `CompilerMessage`.
* The effectful body of `main` is embedded in a writer/except monad
  `Proc`: the event log records subprocess launch attempts, stderr and
  stdout writes and file effects, and the exception channel carries the
  argument of `process::exit`.  The outside world (environment variables,
  subprocess termination statuses, the captured build stdout, file
  creation results) is supplied by a `World` record, so theorems quantify
  over every possible behaviour of the external tools.
  Terminal color styling (`colored`) is display-only and is not modelled;
  logged message texts are the unstyled texts.
-/

namespace CargoPProf

/-! ## Path model: the fragment of `std::path` used by `main.rs` -/

/-- One component of a Unix path, as in `std::path::Component`
(the Windows `Prefix` variant cannot arise on Unix). -/
inductive PathComponent where
  | rootDir
  | curDir
  | parentDir
  | normal (s : List Char)
deriving DecidableEq, Repr

/-- Split a character list at every `/`, keeping empty pieces
(`splitSlash "a//b" = ["a", "", "b"]`, `splitSlash "" = [""]`). -/
def splitSlash : List Char → List (List Char)
  | [] => [[]]
  | c :: cs =>
    if c = '/' then [] :: splitSlash cs
    else
      match splitSlash cs with
      | [] => [[c]]
      | s :: rest => (c :: s) :: rest

/-- A non-empty path segment is classified like `std::path`:
`.` is `CurDir`, `..` is `ParentDir`, anything else is `Normal`. -/
def segToComp : List Char → PathComponent
  | ['.'] => PathComponent.curDir
  | ['.', '.'] => PathComponent.parentDir
  | s => PathComponent.normal s

/-- Drop `CurDir` components (the normalization `std::path` applies to `.`
segments everywhere except at the start of a relative path). -/
def dropCurDir (cs : List PathComponent) : List PathComponent :=
  cs.filter (fun c => !(c == PathComponent.curDir))

/-- The components of a Unix path, as produced by `Path::components`:
a leading `/` yields `RootDir`; empty segments (repeated or trailing
separators) are ignored; `.` segments are dropped except when they are
the first component of a relative path. -/
def pathComponentsChars (l : List Char) : List PathComponent :=
  let segs := (splitSlash l).filter (fun s => !s.isEmpty)
  if l.head? = some '/' then
    PathComponent.rootDir :: dropCurDir (segs.map segToComp)
  else
    match segs.map segToComp with
    | PathComponent.curDir :: rest => PathComponent.curDir :: dropCurDir rest
    | cs => dropCurDir cs

def pathComponents (p : String) : List PathComponent := pathComponentsChars p.data

/-- The characters a single component contributes when a component list is
rendered back to a path (`Components::as_path`). -/
def compChars : PathComponent → List Char
  | PathComponent.rootDir => []
  | PathComponent.curDir => ['.']
  | PathComponent.parentDir => ['.', '.']
  | PathComponent.normal s => s

/-- Interleave `/` between path segments. -/
def intercalateSlash : List (List Char) → List Char
  | [] => []
  | [s] => s
  | s :: rest => s ++ '/' :: intercalateSlash rest

/-- Render a component list back to a path, as `Components::as_path` does:
`[RootDir, a, b] ↦ "/a/b"`, `[a, b] ↦ "a/b"`, `[] ↦ ""`, `[RootDir] ↦ "/"`. -/
def renderComps : List PathComponent → List Char
  | PathComponent.rootDir :: rest => '/' :: intercalateSlash (rest.map compChars)
  | cs => intercalateSlash (cs.map compChars)

/-- `Path::parent`: the path without its final component; `none` when the
path is empty or consists of a root component only. -/
def path_parent (p : String) : Option String :=
  match (pathComponents p).getLast? with
  | none => none
  | some PathComponent.rootDir => none
  | some _ => some (String.mk (renderComps (pathComponents p).dropLast))

/-- `PathBuf::push` on Unix: an absolute `child` replaces `p`; otherwise
`child` is appended, inserting a `/` unless `p` is empty or already ends
with one. -/
def joinChars (p c : List Char) : List Char :=
  if c.head? = some '/' then c
  else if p = [] then c
  else if p.getLast? = some '/' then p ++ c
  else p ++ '/' :: c

/-- `Path::join` (defined via `joinChars` on the underlying characters). -/
def path_join (p c : String) : String := String.mk (joinChars p.data c.data)

/-- The Artifact Path Resolver (`main.rs` lines 120–125): the capture and
trace paths are `perf.data` and `perf.trace` joined onto the executable's
parent directory; `none` when the executable path has no parent. -/
def derive_artifact_paths (executable : String) : Option (String × String) :=
  match path_parent executable with
  | some dir => some (path_join dir "perf.data", path_join dir "perf.trace")
  | none => none

/-- A component that can appear after the head position of a component
list produced by `pathComponentsChars`: `..`, or a normal segment that is
non-empty, slash-free and distinct from `.` and `..`. -/
def goodComp : PathComponent → Bool
  | PathComponent.parentDir => true
  | PathComponent.normal s =>
      !s.isEmpty && s.all (fun c => !(c == '/')) && !(s == ['.']) && !(s == ['.', '.'])
  | _ => false

/-- The canonical component lists: exactly the images of
`pathComponentsChars` (an optional leading root or current-directory
component, followed by good components). -/
def canonicalComps : List PathComponent → Bool
  | [] => true
  | PathComponent.rootDir :: rest => rest.all goodComp
  | PathComponent.curDir :: rest => rest.all goodComp
  | cs => cs.all goodComp

/-! ## Build-event parsing -/

/-- `CompilerMessage` (`main.rs` lines 43–46): the single deserialized
field of a build-event record.  `serde` deserialization of this struct
fails whenever the JSON line is malformed, is not an object, or lacks a
string `executable` field. -/
structure CompilerMessage where
  executable : String
deriving DecidableEq, Repr

/-- The Build-Event Parser (`main.rs` lines 113–119): deserialize each
line, silently dropping failures (`flat_map`), and take the `executable`
field of the last surviving record.  The deserializer itself (external
crate `serde_json`) is abstracted as `parse`. -/
def findExecutable (parse : String → Option CompilerMessage) (lines : List String) :
    Option String :=
  ((List.filterMap parse lines).getLast?).map CompilerMessage.executable

/-! ## The effect model -/

/-- Termination status of a child process (`std::process::ExitStatus` on
Unix): either a numeric exit code or abnormal termination (no code,
e.g. killed by a signal). -/
structure ExitStatus where
  code : Option Int
deriving DecidableEq, Repr

/-- `ExitStatus::success`: exited with code `0`. -/
def ExitStatus.success (s : ExitStatus) : Bool := decide (s.code = some 0)

/-- Observable effects of a run.  `spawn` records an attempt to start a
child process (`Command::status` / `Command::output`); `eprintln` /
`println` record writes to stderr / stdout; `errorMsg m` records the
`eprintln!("Error: {}", e)` performed by `resolve` (content rendered on
stderr as `"Error: " ++ m`); `fileCreate` records `File::create` and
`fileAppend` the append performed by `add_to_cargo_toml`. -/
inductive Event where
  | spawn (prog : String) (args : List String)
  | eprintln (msg : String)
  | println (msg : String)
  | errorMsg (msg : String)
  | fileCreate (path : String)
  | fileAppend (path : String) (content : String)
deriving DecidableEq, Repr

/-- A computation of the program: an event log plus either a value or the
argument of `process::exit` (which aborts the rest of the program). -/
def Proc (α : Type) : Type := Except Nat α × List Event

def Proc.pure {α : Type} (a : α) : Proc α := (Except.ok a, [])

def Proc.bind {α β : Type} (p : Proc α) (f : α → Proc β) : Proc β :=
  match p with
  | (Except.ok a, evs) => ((f a).1, evs ++ (f a).2)
  | (Except.error c, evs) => (Except.error c, evs)

instance : Monad Proc where
  pure := Proc.pure
  bind := Proc.bind

/-- Record one event. -/
def emit (e : Event) : Proc Unit := (Except.ok (), [e])

/-- `process::exit(code)`. -/
def procExit {α : Type} (code : Nat) : Proc α := (Except.error code, [])

/-- The behaviour of the outside world for one run: the `CARGO`
environment variable, the result of starting and waiting on each child
process (keyed by program and argument vector), the lines captured from
the build tool's stdout, the `serde_json` deserializer, and the results
of the file operations. -/
structure World where
  cargoEnv : Option String
  run : String → List String → Except String ExitStatus
  buildStdout : List String
  parse : String → Option CompilerMessage
  createFile : String → Except String Unit
  openCargoToml : Except String Unit
  writeCargoToml : Except String Unit

/-- The parsed `pprof` subcommand arguments (struct `PProfArgs`). -/
structure PProfArgs where
  add : Bool
  open_firefox_profiler : Bool
  ignore_exit : Bool
  app_args : List String

/-! ## The program (`main.rs`) -/

/-- `resolve` (lines 49–57): pass a success through; on error print
`Error: {e}` to stderr and `process::exit(1)`. -/
def resolve {T : Type} (result : Except String T) : Proc T :=
  match result with
  | Except.ok t => (Except.ok t, [])
  | Except.error e => (Except.error 1, [Event.errorMsg e])

/-- `resolve_status` (lines 59–67): a non-success status is converted to a
fatal error whose message reports the child's numeric code when there is
one.  The message text hardcodes "Cargo" at every call site. -/
def resolve_status (status : ExitStatus) : Proc Unit :=
  if !status.success then
    match status.code with
    | some code => do
      let _ign : Nat ← resolve (Except.error ("Cargo returned with exit code " ++ toString code))
      Proc.pure ()
    | none => do
      let _ign : Nat ← resolve (Except.error "Cargo returned with an error")
      Proc.pure ()
  else Proc.pure ()

/-- `print_step` (lines 69–72); the green/bold styling is display-only. -/
def print_step (desc : String) : Proc Unit :=
  emit (Event.eprintln ("\n=> " ++ desc))

/-- `open_firefox_profiler` (lines 74–79). -/
def open_firefox_profiler (w : World) : Proc Unit := do
  emit (Event.spawn "firefox" ["https://profiler.firefox.com"])
  let status ← resolve (w.run "firefox" ["https://profiler.firefox.com"])
  resolve_status status

/-- Modelled from the spec: the contents of `src/cargo-toml-snippet.toml`
(pulled in by `include_str!` in the source) are not under `src/`; the spec
describes the file only as a fixed text snippet adding a "profiling"
profile to the build manifest, and no claim depends on its exact text, so
it is modelled as an arbitrary fixed string. -/
def CARGO_TOML_SNIPPET : String := "[profile.profiling]\ninherits = \"release\"\ndebug = true"

/-- `add_to_cargo_toml` (lines 81–88): open `Cargo.toml` in append mode
and append the snippet (preceded by a newline). -/
def add_to_cargo_toml (w : World) : Proc Unit := do
  print_step "Appending snippet to Cargo.toml"
  let _file ← resolve w.openCargoToml
  emit (Event.eprintln "Done")
  let _written ← resolve w.writeCargoToml
  emit (Event.fileAppend "Cargo.toml" ("\n" ++ CARGO_TOML_SNIPPET))

/-- `env::var("CARGO")`; the `Display` text of `VarError::NotPresent`. -/
def env_var_CARGO (w : World) : Except String String :=
  match w.cargoEnv with
  | some p => Except.ok p
  | none => Except.error "environment variable not found"

/-- The build tool's argument vector (lines 107–109). -/
def build_args : List String :=
  ["build", "--message-format=json-render-diagnostics", "--profile=profiling"]

/-- The capture stage's argument vector (lines 130–134). -/
def perf_record_args (perf_out_path executable : String) (app_args : List String) :
    List String :=
  ["record", "--output=" ++ perf_out_path, "-g", "-F", "999", executable] ++ app_args

/-- The convert stage's argument vector (lines 143–145). -/
def perf_script_args (perf_out_path : String) : List String :=
  ["script", "-F", "+pid", "--input=" ++ perf_out_path]

/-- The early-exit flag handling at the top of `main` (lines 94–100):
either flag runs its action and then exits the process with code 0. -/
def handle_flags (w : World) (args : PProfArgs) : Proc Unit :=
  if args.open_firefox_profiler then do
    open_firefox_profiler w
    procExit 0
  else if args.add then do
    add_to_cargo_toml w
    procExit 0
  else Proc.pure ()

/-- Lines 116–119: the `executable` of the last parsed message, fatal when
there is none. -/
def get_executable (messages : List CompilerMessage) : Proc String :=
  match messages.getLast? with
  | some msg => Proc.pure msg.executable
  | none => resolve (Except.error "Could not find executable")

/-- Lines 120–123: the executable's parent directory, fatal when there is
none. -/
def get_dir (executable : String) : Proc String :=
  match path_parent executable with
  | some dir => Proc.pure dir
  | none => resolve (Except.error "Could not determine output directory")

/-- Lines 136–138: a non-success status of the profiled run is fatal
unless `ignore_exit` is set. -/
def check_capture_status (args : PProfArgs) (status : ExitStatus) : Proc Unit :=
  if !args.ignore_exit then resolve_status status else Proc.pure ()

/-- `main` (lines 91–151).  The flow mirrors the source statement by
statement (the four inline branching constructs are the named helpers
above); each `Command` invocation is logged as a `spawn` event and its
result is drawn from the `World`.  The build's captured stdout is
`w.buildStdout` (`.lines().map_while(Result::ok)` is the identity on a
list of well-formed text lines). -/
def main (w : World) (args : PProfArgs) : Proc Unit := do
  handle_flags w args
  let cargo_path ← resolve (env_var_CARGO w)
  print_step "Building binary"
  emit (Event.spawn cargo_path build_args)
  let cargo_out_status ← resolve (w.run cargo_path build_args)
  resolve_status cargo_out_status
  let lines := w.buildStdout
  let messages := List.filterMap w.parse lines
  let executable ← get_executable messages
  let dir ← get_dir executable
  let perf_out_path := path_join dir "perf.data"
  let trace_path := path_join dir "perf.trace"
  emit (Event.eprintln ("Binary found: " ++ executable))
  print_step "Running program with perf"
  emit (Event.spawn "perf" (perf_record_args perf_out_path executable args.app_args))
  let status ← resolve (w.run "perf" (perf_record_args perf_out_path executable args.app_args))
  check_capture_status args status
  print_step "Converting data to trace format"
  let _trace_file ← resolve (w.createFile trace_path)
  emit (Event.fileCreate trace_path)
  emit (Event.spawn "perf" (perf_script_args perf_out_path))
  let status2 ← resolve (w.run "perf" (perf_script_args perf_out_path))
  resolve_status status2
  emit (Event.println ("Trace file: " ++ trace_path))
  emit (Event.println "This file can be viewed using the Firefox Profiler (https://profiler.firefox.com)")

/-- Run the whole program: falling off the end of `main` is process exit
code `0`; `process::exit(c)` is exit code `c`. -/
def runMain (w : World) (args : PProfArgs) : List Event × Nat :=
  match main w args with
  | (Except.ok _, evs) => (evs, 0)
  | (Except.error c, evs) => (evs, c)

/-- The message text `resolve_status` reports for a non-success status. -/
def status_error_msg (st : ExitStatus) : String :=
  match st.code with
  | some code => "Cargo returned with exit code " ++ toString code
  | none => "Cargo returned with an error"

/-! ## Observation predicates -/

/-- Events that are error reports (the stderr write performed by `resolve`). -/
def isErrorEvent : Event → Bool
  | Event.errorMsg _ => true
  | _ => false

/-- How many error reports a log contains. -/
def errCount (evs : List Event) : Nat := (evs.filter isErrorEvent).length

/-- A log that ends with an error report. -/
def endsWithError (evs : List Event) : Prop :=
  ∃ m, evs.getLast? = some (Event.errorMsg m)

/-- The run-shape invariant of every computation built by this program:
a computation that finishes normally has reported no error; `process::exit`
is only ever reached with code `0` (the two early-exit flags, with no error
reported) or code `1` (immediately after exactly one error report, which is
the final event). -/
def WF {α : Type} (p : Proc α) : Prop :=
  match p with
  | (Except.ok _, evs) => errCount evs = 0
  | (Except.error c, evs) =>
      (c = 0 ∧ errCount evs = 0) ∨ (c = 1 ∧ errCount evs = 1 ∧ endsWithError evs)

/-! ## Concrete fixtures (used only by witnesses and counterexamples) -/

/-- A deserializer behaviour: the line `"good"` is a well-formed record
whose executable is `/tmp/out/app`; every other line fails to parse. -/
def demo_parse : String → Option CompilerMessage :=
  fun l => if l = "good" then some ⟨"/tmp/out/app"⟩ else none

/-- A deserializer behaviour with two distinct well-formed lines. -/
def demo_parse2 : String → Option CompilerMessage :=
  fun l =>
    if l = "first" then some ⟨"/tmp/out/build-script"⟩
    else if l = "good" then some ⟨"/tmp/out/app"⟩ else none

/-- A world in which the build tool, the profiler and the converter
terminate with the three given statuses and the build emits one malformed
line followed by one well-formed record naming `/tmp/out/app`. -/
def demo_world (buildSt recordSt scriptSt : ExitStatus) : World :=
  { cargoEnv := some "/usr/bin/cargo"
  , run := fun p a =>
      if p = "/usr/bin/cargo" then Except.ok buildSt
      else if a.head? = some "record" then Except.ok recordSt
      else Except.ok scriptSt
  , buildStdout := ["junk", "good"]
  , parse := demo_parse
  , createFile := fun _ => Except.ok ()
  , openCargoToml := Except.ok ()
  , writeCargoToml := Except.ok () }

/-- A world in which the `CARGO` environment variable is unset. -/
def demo_world_no_env : World :=
  { demo_world ⟨some 0⟩ ⟨some 0⟩ ⟨some 0⟩ with cargoEnv := none }

/-- A world whose build output contains no well-formed record. -/
def demo_world_no_exe : World :=
  { demo_world ⟨some 0⟩ ⟨some 0⟩ ⟨some 0⟩ with buildStdout := ["junk", "noise"] }

/-- Argument fixtures. -/
def demo_args (open_ff add_flag ignore : Bool) : PProfArgs :=
  { add := add_flag
  , open_firefox_profiler := open_ff
  , ignore_exit := ignore
  , app_args := [] }

/-! ## Basic computation lemmas for the effect monad -/

theorem bind_eq_Proc_bind {α β : Type} (p : Proc α) (f : α → Proc β) :
    p >>= f = Proc.bind p f := rfl

theorem Proc_bind_ok {α β : Type} (a : α) (evs : List Event) (f : α → Proc β) :
    Proc.bind (Except.ok a, evs) f = ((f a).1, evs ++ (f a).2) := rfl

theorem Proc_bind_error {α β : Type} (c : Nat) (evs : List Event) (f : α → Proc β) :
    Proc.bind (Except.error c, evs) f = (Except.error c, evs) := rfl

theorem pure_eq_Proc_pure {α : Type} (a : α) : (pure a : Proc α) = (Except.ok a, []) := rfl

/-- A successful status makes `resolve_status` a no-op. -/
theorem resolve_status_success {st : ExitStatus} (h : st.success = true) :
    resolve_status st = (Except.ok (), []) := by
  unfold resolve_status
  rw [h]
  rfl

/-- A non-success status makes `resolve_status` report once and exit 1. -/
theorem resolve_status_failure {st : ExitStatus} (h : st.success = false) :
    resolve_status st = (Except.error 1, [Event.errorMsg (status_error_msg st)]) := by
  unfold resolve_status status_error_msg
  rw [h]
  cases hc : st.code <;> rfl

/-! ## Parser lemmas -/

theorem filterMap_head?_eq {α β : Type} (f : α → Option β) :
    ∀ l : List α, (l.filterMap f).head? = ((l.filter fun a => (f a).isSome).head?).bind f := by
  intro l
  induction l with
  | nil => rfl
  | cons a t ih =>
    cases hfa : f a with
    | some b => simp [List.filterMap_cons, List.filter_cons, hfa]
    | none => simpa [List.filterMap_cons, List.filter_cons, hfa] using ih

theorem filterMap_getLast?_eq {α β : Type} (f : α → Option β) (l : List α) :
    (l.filterMap f).getLast? = ((l.filter fun a => (f a).isSome).getLast?).bind f := by
  rw [List.getLast?_eq_head?_reverse, List.getLast?_eq_head?_reverse,
    ← List.filterMap_reverse, ← List.filter_reverse]
  exact filterMap_head?_eq f l.reverse

/-! ## Claim C1 -/

/-- C1: for every sequence of build-output lines containing at least one
line that parses as a record (equivalently, a record with a present
executable field), the Build-Event Parser returns exactly the executable
field of the last such line — here `l` is the last line whose parse
succeeds, and arbitrarily many malformed or executable-absent lines may
surround the parsing ones. -/
theorem C1_parser_returns_last_executable (parse : String → Option CompilerMessage)
    (lines : List String) (l : String)
    (h : (lines.filter fun s => (parse s).isSome).getLast? = some l) :
    ∃ msg, parse l = some msg ∧ findExecutable parse lines = some msg.executable := by
  have hmem : l ∈ lines.filter fun s => (parse s).isSome := List.mem_of_mem_getLast? h
  have hsome : (parse l).isSome := (List.mem_filter.mp hmem).2
  obtain ⟨msg, hmsg⟩ := Option.isSome_iff_exists.mp hsome
  refine ⟨msg, hmsg, ?_⟩
  unfold findExecutable
  rw [filterMap_getLast?_eq, h]
  simp [hmsg]

/-- Witness for C1: five lines, two of which parse; the parser returns the
executable of the second parsing line. -/
theorem C1_witness :
    ((["junk", "first", "bad", "good", "trail"].filter
        fun s => (demo_parse2 s).isSome).getLast? = some "good")
    ∧ ∃ msg, demo_parse2 "good" = some msg
        ∧ findExecutable demo_parse2 ["junk", "first", "bad", "good", "trail"]
            = some msg.executable :=
  ⟨by decide, C1_parser_returns_last_executable demo_parse2
    ["junk", "first", "bad", "good", "trail"] "good" (by decide)⟩

/-! ## Path theory: splitting -/

theorem splitSlash_ne_nil (l : List Char) : splitSlash l ≠ [] := by
  cases l with
  | nil => simp [splitSlash]
  | cons c cs =>
    unfold splitSlash
    by_cases h : c = '/'
    · simp [h]
    · simp only [if_neg h]
      cases hs : splitSlash cs <;> simp

theorem mem_splitSlash_no_slash (l : List Char) :
    ∀ s ∈ splitSlash l, ∀ c ∈ s, c ≠ '/' := by
  induction l with
  | nil =>
    intro s hs
    simp [splitSlash] at hs
    subst hs
    simp
  | cons a t ih =>
    intro s hs c hc
    unfold splitSlash at hs
    by_cases ha : a = '/'
    · rw [if_pos ha] at hs
      rcases List.mem_cons.mp hs with h | h
      · subst h; simp at hc
      · exact ih s h c hc
    · rw [if_neg ha] at hs
      cases hsp : splitSlash t with
      | nil => exact absurd hsp (splitSlash_ne_nil t)
      | cons s0 rest =>
        rw [hsp] at hs
        rcases List.mem_cons.mp hs with h | h
        · subst h
          rcases List.mem_cons.mp hc with h' | h'
          · subst h'; exact ha
          · exact ih s0 (by rw [hsp]; exact List.mem_cons_self _ _) c h'
        · exact ih s (by rw [hsp]; exact List.mem_cons_of_mem _ h) c hc

theorem splitSlash_no_slash (l : List Char) (h : ∀ c ∈ l, c ≠ '/') :
    splitSlash l = [l] := by
  induction l with
  | nil => rfl
  | cons a t ih =>
    have ha : a ≠ '/' := h a (List.mem_cons_self a t)
    have ht : ∀ c ∈ t, c ≠ '/' := fun c hc => h c (List.mem_cons_of_mem a hc)
    unfold splitSlash
    rw [if_neg ha, ih ht]

theorem splitSlash_cons (c : Char) (l : List Char) :
    splitSlash (c :: l) =
      if c = '/' then [] :: splitSlash l
      else
        match splitSlash l with
        | [] => [[c]]
        | s :: rest => (c :: s) :: rest := rfl

theorem splitSlash_append (a b : List Char) :
    splitSlash (a ++ '/' :: b) = splitSlash a ++ splitSlash b := by
  induction a with
  | nil => rfl
  | cons c t ih =>
    by_cases hc : c = '/'
    · show splitSlash (c :: (t ++ '/' :: b)) = splitSlash (c :: t) ++ splitSlash b
      rw [splitSlash_cons, splitSlash_cons, if_pos hc, if_pos hc, ih]
      rfl
    · cases hsp : splitSlash t with
      | nil => exact absurd hsp (splitSlash_ne_nil t)
      | cons s0 rest =>
        show splitSlash (c :: (t ++ '/' :: b)) = splitSlash (c :: t) ++ splitSlash b
        rw [splitSlash_cons, splitSlash_cons, if_neg hc, if_neg hc, ih, hsp]
        rfl

/-! ## Path theory: interleaving -/

theorem intercalateSlash_cons (s : List Char) (rest : List (List Char)) (h : rest ≠ []) :
    intercalateSlash (s :: rest) = s ++ '/' :: intercalateSlash rest := by
  cases rest with
  | nil => exact absurd rfl h
  | cons t ts => rfl

theorem splitSlash_intercalate (parts : List (List Char)) (h1 : parts ≠ [])
    (h2 : ∀ s ∈ parts, ∀ c ∈ s, c ≠ '/') :
    splitSlash (intercalateSlash parts) = parts := by
  induction parts with
  | nil => exact absurd rfl h1
  | cons s rest ih =>
    cases rest with
    | nil => exact splitSlash_no_slash s (h2 s (List.mem_cons_self _ _))
    | cons t ts =>
      rw [intercalateSlash_cons s (t :: ts) (by simp), splitSlash_append,
        splitSlash_no_slash s (h2 s (List.mem_cons_self _ _)),
        ih (by simp) (fun x hx => h2 x (List.mem_cons_of_mem _ hx))]
      rfl

theorem intercalateSlash_append_single (parts : List (List Char)) (x : List Char)
    (h : parts ≠ []) :
    intercalateSlash (parts ++ [x]) = intercalateSlash parts ++ '/' :: x := by
  induction parts with
  | nil => exact absurd rfl h
  | cons s rest ih =>
    cases rest with
    | nil => rfl
    | cons t ts =>
      rw [List.cons_append, intercalateSlash_cons s ((t :: ts) ++ [x]) (by simp),
        ih (by simp), intercalateSlash_cons s (t :: ts) (by simp)]
      simp

theorem intercalateSlash_head? (s : List Char) (parts : List (List Char)) (h : s ≠ []) :
    (intercalateSlash (s :: parts)).head? = s.head? := by
  cases parts with
  | nil => rfl
  | cons t ts =>
    rw [intercalateSlash_cons s (t :: ts) (by simp)]
    cases s with
    | nil => exact absurd rfl h
    | cons a sa => rfl

theorem intercalateSlash_getLast (parts : List (List Char)) (h1 : parts ≠ [])
    (h2 : ∀ s ∈ parts, s ≠ []) (h3 : ∀ s ∈ parts, ∀ c ∈ s, c ≠ '/') :
    ∃ c, (intercalateSlash parts).getLast? = some c ∧ c ≠ '/' := by
  induction parts with
  | nil => exact absurd rfl h1
  | cons s rest ih =>
    cases rest with
    | nil =>
      have hs : s ≠ [] := h2 s (List.mem_cons_self _ _)
      refine ⟨s.getLast hs, ?_, ?_⟩
      · exact List.getLast?_eq_getLast s hs
      · exact h3 s (List.mem_cons_self _ _) _ (List.getLast_mem hs)
    | cons t ts =>
      obtain ⟨c, hc1, hc2⟩ := ih (by simp)
        (fun x hx => h2 x (List.mem_cons_of_mem _ hx))
        (fun x hx => h3 x (List.mem_cons_of_mem _ hx))
      have hne : intercalateSlash (t :: ts) ≠ [] := by
        intro he
        rw [he] at hc1
        simp at hc1
      refine ⟨c, ?_, hc2⟩
      rw [intercalateSlash_cons s (t :: ts) (by simp),
        List.getLast?_append_of_ne_nil s (by simp),
        show ('/' :: intercalateSlash (t :: ts)) = ['/'] ++ intercalateSlash (t :: ts) from rfl,
        List.getLast?_append_of_ne_nil ['/'] hne]
      exact hc1

/-! ## Path theory: components -/

theorem goodComp_normal_iff (s : List Char) :
    goodComp (PathComponent.normal s) = true ↔
      s ≠ [] ∧ (∀ c ∈ s, c ≠ '/') ∧ s ≠ ['.'] ∧ s ≠ ['.', '.'] := by
  unfold goodComp
  simp [List.all_eq_true, List.isEmpty_iff, and_assoc]

theorem goodComp_ne_curDir {c : PathComponent} (h : goodComp c = true) :
    c ≠ PathComponent.curDir := by
  intro he
  subst he
  simp [goodComp] at h

theorem goodComp_ne_rootDir {c : PathComponent} (h : goodComp c = true) :
    c ≠ PathComponent.rootDir := by
  intro he
  subst he
  simp [goodComp] at h

theorem compChars_ne_nil {c : PathComponent}
    (h : c = PathComponent.curDir ∨ goodComp c = true) : compChars c ≠ [] := by
  rcases h with h | h
  · subst h; simp [compChars]
  · cases c with
    | rootDir => simp [goodComp] at h
    | curDir => simp [compChars]
    | parentDir => simp [compChars]
    | normal s =>
      have := (goodComp_normal_iff s).mp h
      simpa [compChars] using this.1

theorem compChars_no_slash {c : PathComponent}
    (h : c = PathComponent.curDir ∨ goodComp c = true) :
    ∀ x ∈ compChars c, x ≠ '/' := by
  rcases h with h | h
  · subst h; simp [compChars]
  · cases c with
    | rootDir => simp [goodComp] at h
    | curDir => simp [compChars]
    | parentDir => simp [compChars]
    | normal s =>
      have := (goodComp_normal_iff s).mp h
      simpa [compChars] using this.2.1

theorem segToComp_compChars {c : PathComponent} (h : goodComp c = true) :
    segToComp (compChars c) = c := by
  cases c with
  | rootDir => simp [goodComp] at h
  | curDir => simp [goodComp] at h
  | parentDir => rfl
  | normal s =>
    obtain ⟨h1, _h2, h3, h4⟩ := (goodComp_normal_iff s).mp h
    show segToComp s = PathComponent.normal s
    unfold segToComp
    split
    · exact absurd rfl h3
    · exact absurd rfl h4
    · rfl

theorem dropCurDir_eq_self {cs : List PathComponent} (h : cs.all goodComp = true) :
    dropCurDir cs = cs := by
  unfold dropCurDir
  rw [List.filter_eq_self]
  intro c hc
  have : goodComp c = true := (List.all_eq_true.mp h) c hc
  have hne := goodComp_ne_curDir this
  simpa using hne

theorem all_goodComp_canonical {cs : List PathComponent} (h : cs.all goodComp = true) :
    canonicalComps cs = true := by
  cases cs with
  | nil => rfl
  | cons c rest =>
    cases c with
    | rootDir =>
      have : goodComp PathComponent.rootDir = true := (List.all_eq_true.mp h) _ (List.mem_cons_self _ _)
      simp [goodComp] at this
    | curDir =>
      have : goodComp PathComponent.curDir = true := (List.all_eq_true.mp h) _ (List.mem_cons_self _ _)
      simp [goodComp] at this
    | parentDir => exact h
    | normal s => exact h

theorem segToComp_curDir_or_good (s : List Char) (h1 : s ≠ []) (h2 : ∀ c ∈ s, c ≠ '/') :
    segToComp s = PathComponent.curDir ∨ goodComp (segToComp s) = true := by
  unfold segToComp
  split
  · exact Or.inl rfl
  · exact Or.inr rfl
  · rename_i hne1 hne2
    refine Or.inr ((goodComp_normal_iff s).mpr ⟨h1, h2, ?_, ?_⟩)
    · intro he; exact hne1 (by rw [he])
    · intro he; exact hne2 (by rw [he])

theorem mem_segs_props (l : List Char) :
    ∀ s ∈ (splitSlash l).filter (fun s => !s.isEmpty), s ≠ [] ∧ ∀ c ∈ s, c ≠ '/' := by
  intro s hs
  have h1 := List.mem_filter.mp hs
  refine ⟨by simpa [List.isEmpty_iff] using h1.2, mem_splitSlash_no_slash l s h1.1⟩

theorem all_good_dropCurDir {cs : List PathComponent}
    (h : ∀ c ∈ cs, c = PathComponent.curDir ∨ goodComp c = true) :
    (dropCurDir cs).all goodComp = true := by
  rw [List.all_eq_true]
  intro c hc
  have h2 := List.mem_filter.mp hc
  rcases h c h2.1 with h' | h'
  · rw [h'] at h2
    simp at h2
  · exact h'

theorem canonical_pathComponentsChars (l : List Char) :
    canonicalComps (pathComponentsChars l) = true := by
  have hmem : ∀ c ∈ ((splitSlash l).filter (fun s => !s.isEmpty)).map segToComp,
      c = PathComponent.curDir ∨ goodComp c = true := by
    intro c hc
    obtain ⟨s, hs, rfl⟩ := List.mem_map.mp hc
    obtain ⟨hs1, hs2⟩ := mem_segs_props l s hs
    exact segToComp_curDir_or_good s hs1 hs2
  show canonicalComps (pathComponentsChars l) = true
  unfold pathComponentsChars
  by_cases hh : l.head? = some '/'
  · rw [if_pos hh]
    exact all_good_dropCurDir hmem
  · rw [if_neg hh]
    cases hm : ((splitSlash l).filter (fun s => !s.isEmpty)).map segToComp with
    | nil => rfl
    | cons c rest =>
      rw [hm] at hmem
      have hrest : ∀ x ∈ rest, x = PathComponent.curDir ∨ goodComp x = true :=
        fun x hx => hmem x (List.mem_cons_of_mem _ hx)
      cases c with
      | rootDir =>
        show canonicalComps (dropCurDir (PathComponent.rootDir :: rest)) = true
        exact all_goodComp_canonical (all_good_dropCurDir hmem)
      | curDir =>
        show canonicalComps (PathComponent.curDir :: dropCurDir rest) = true
        exact all_good_dropCurDir hrest
      | parentDir =>
        show canonicalComps (dropCurDir (PathComponent.parentDir :: rest)) = true
        exact all_goodComp_canonical (all_good_dropCurDir hmem)
      | normal s =>
        show canonicalComps (dropCurDir (PathComponent.normal s :: rest)) = true
        exact all_goodComp_canonical (all_good_dropCurDir hmem)

theorem all_goodComp_dropLast {cs : List PathComponent} (h : cs.all goodComp = true) :
    cs.dropLast.all goodComp = true := by
  rw [List.all_eq_true] at h ⊢
  exact fun c hc => h c (List.dropLast_subset cs hc)

theorem canonical_dropLast {cs : List PathComponent} (h : canonicalComps cs = true) :
    canonicalComps cs.dropLast = true := by
  cases cs with
  | nil => rfl
  | cons c rest =>
    cases rest with
    | nil => cases c <;> rfl
    | cons r1 rs =>
      have hdl : (c :: r1 :: rs).dropLast = c :: (r1 :: rs).dropLast := rfl
      rw [hdl]
      cases c with
      | rootDir => exact all_goodComp_dropLast h
      | curDir => exact all_goodComp_dropLast h
      | parentDir =>
        refine all_goodComp_canonical ?_
        have hall : (PathComponent.parentDir :: r1 :: rs).all goodComp = true := h
        rw [List.all_cons, Bool.and_eq_true] at hall ⊢
        exact ⟨hall.1, all_goodComp_dropLast hall.2⟩
      | normal s =>
        refine all_goodComp_canonical ?_
        have hall : (PathComponent.normal s :: r1 :: rs).all goodComp = true := h
        rw [List.all_cons, Bool.and_eq_true] at hall ⊢
        exact ⟨hall.1, all_goodComp_dropLast hall.2⟩

theorem segToComp_compChars_cg {c : PathComponent}
    (h : c = PathComponent.curDir ∨ goodComp c = true) :
    segToComp (compChars c) = c := by
  rcases h with h | h
  · subst h; rfl
  · exact segToComp_compChars h

theorem parse_parts (cs : List PathComponent)
    (hall : ∀ c ∈ cs, c = PathComponent.curDir ∨ goodComp c = true) :
    ((splitSlash (intercalateSlash (cs.map compChars))).filter
      (fun s => !s.isEmpty)).map segToComp = cs := by
  cases cs with
  | nil => rfl
  | cons r0 rs =>
    have hpne : ∀ p ∈ (r0 :: rs).map compChars, p ≠ [] := by
      intro p hp
      obtain ⟨c, hc, rfl⟩ := List.mem_map.mp hp
      exact compChars_ne_nil (hall c hc)
    have hpns : ∀ p ∈ (r0 :: rs).map compChars, ∀ x ∈ p, x ≠ '/' := by
      intro p hp
      obtain ⟨c, hc, rfl⟩ := List.mem_map.mp hp
      exact compChars_no_slash (hall c hc)
    rw [splitSlash_intercalate _ (by simp) hpns,
      List.filter_eq_self.mpr (by intro a ha; simpa [List.isEmpty_iff] using hpne a ha),
      List.map_map]
    have hcong : ∀ c ∈ r0 :: rs, (segToComp ∘ compChars) c = id c := by
      intro c hc
      exact segToComp_compChars_cg (hall c hc)
    rw [List.map_congr_left hcong, List.map_id]

theorem relative_head_not_slash (c0 : PathComponent) (rest : List PathComponent)
    (h0 : c0 = PathComponent.curDir ∨ goodComp c0 = true) :
    ¬ (intercalateSlash ((c0 :: rest).map compChars)).head? = some '/' := by
  have hne := compChars_ne_nil h0
  have hns := compChars_no_slash h0
  rw [List.map_cons, intercalateSlash_head? _ _ hne]
  cases hcc : compChars c0 with
  | nil => exact absurd hcc hne
  | cons x xs =>
    intro hx
    simp only [List.head?_cons, Option.some.injEq] at hx
    exact hns x (by rw [hcc]; exact List.mem_cons_self _ _) hx

theorem pathComponentsChars_render {cs : List PathComponent}
    (h : canonicalComps cs = true) :
    pathComponentsChars (renderComps cs) = cs := by
  cases cs with
  | nil => rfl
  | cons c0 rest =>
    cases c0 with
    | rootDir =>
      have hall : rest.all goodComp = true := h
      show pathComponentsChars ('/' :: intercalateSlash (rest.map compChars)) =
        PathComponent.rootDir :: rest
      simp only [pathComponentsChars, List.head?_cons, eq_self_iff_true, if_true]
      congr 1
      rw [show splitSlash ('/' :: intercalateSlash (rest.map compChars)) =
          [] :: splitSlash (intercalateSlash (rest.map compChars)) from by
        rw [splitSlash_cons]; rfl]
      rw [show (([] : List Char) :: splitSlash (intercalateSlash (rest.map compChars))).filter
            (fun s => !s.isEmpty) =
          (splitSlash (intercalateSlash (rest.map compChars))).filter (fun s => !s.isEmpty) from by
        simp]
      rw [parse_parts rest (fun c hc => Or.inr (List.all_eq_true.mp hall c hc))]
      exact dropCurDir_eq_self hall
    | curDir =>
      have hall : rest.all goodComp = true := h
      have hparse := parse_parts (PathComponent.curDir :: rest)
        (by
          intro c hc
          rcases List.mem_cons.mp hc with h' | h'
          · exact Or.inl h'
          · exact Or.inr (List.all_eq_true.mp hall c h'))
      show pathComponentsChars
        (intercalateSlash ((PathComponent.curDir :: rest).map compChars)) =
        PathComponent.curDir :: rest
      simp only [pathComponentsChars,
        if_neg (relative_head_not_slash PathComponent.curDir rest (Or.inl rfl))]
      rw [hparse]
      show PathComponent.curDir :: dropCurDir rest = PathComponent.curDir :: rest
      rw [dropCurDir_eq_self hall]
    | parentDir =>
      have hall : (PathComponent.parentDir :: rest).all goodComp = true := h
      have hgood : goodComp PathComponent.parentDir = true := rfl
      have hparse := parse_parts (PathComponent.parentDir :: rest)
        (fun c hc => Or.inr (List.all_eq_true.mp hall c hc))
      show pathComponentsChars
        (intercalateSlash ((PathComponent.parentDir :: rest).map compChars)) =
        PathComponent.parentDir :: rest
      simp only [pathComponentsChars,
        if_neg (relative_head_not_slash PathComponent.parentDir rest (Or.inr hgood))]
      rw [hparse]
      show dropCurDir (PathComponent.parentDir :: rest) = PathComponent.parentDir :: rest
      exact dropCurDir_eq_self hall
    | normal s =>
      have hall : (PathComponent.normal s :: rest).all goodComp = true := h
      have hgood : goodComp (PathComponent.normal s) = true := by
        have := List.all_eq_true.mp hall
        exact this _ (List.mem_cons_self _ _)
      have hparse := parse_parts (PathComponent.normal s :: rest)
        (fun c hc => Or.inr (List.all_eq_true.mp hall c hc))
      show pathComponentsChars
        (intercalateSlash ((PathComponent.normal s :: rest).map compChars)) =
        PathComponent.normal s :: rest
      simp only [pathComponentsChars,
        if_neg (relative_head_not_slash (PathComponent.normal s) rest (Or.inr hgood))]
      rw [hparse]
      show dropCurDir (PathComponent.normal s :: rest) = PathComponent.normal s :: rest
      exact dropCurDir_eq_self hall

theorem canonical_head_cg {c0 : PathComponent} {rest : List PathComponent}
    (h : canonicalComps (c0 :: rest) = true) (hnr : c0 ≠ PathComponent.rootDir) :
    c0 = PathComponent.curDir ∨ goodComp c0 = true := by
  cases c0 with
  | rootDir => exact absurd rfl hnr
  | curDir => exact Or.inl rfl
  | parentDir => exact Or.inr rfl
  | normal s =>
    have hall : (PathComponent.normal s :: rest).all goodComp = true := h
    exact Or.inr ((List.all_eq_true.mp hall) _ (List.mem_cons_self _ _))

theorem canonical_tail_good {c0 : PathComponent} {rest : List PathComponent}
    (h : canonicalComps (c0 :: rest) = true) :
    ∀ c ∈ rest, c = PathComponent.curDir ∨ goodComp c = true := by
  intro c hc
  cases c0 with
  | rootDir => exact Or.inr ((List.all_eq_true.mp h) c hc)
  | curDir => exact Or.inr ((List.all_eq_true.mp h) c hc)
  | parentDir =>
    have hall : (PathComponent.parentDir :: rest).all goodComp = true := h
    exact Or.inr ((List.all_eq_true.mp hall) c (List.mem_cons_of_mem _ hc))
  | normal s =>
    have hall : (PathComponent.normal s :: rest).all goodComp = true := h
    exact Or.inr ((List.all_eq_true.mp hall) c (List.mem_cons_of_mem _ hc))

theorem renderComps_rel (c0 : PathComponent) (rest : List PathComponent)
    (hnr : c0 ≠ PathComponent.rootDir) :
    renderComps (c0 :: rest) = intercalateSlash ((c0 :: rest).map compChars) := by
  cases c0 with
  | rootDir => exact absurd rfl hnr
  | curDir => rfl
  | parentDir => rfl
  | normal s => rfl

theorem renderComps_ne_nil {cs : List PathComponent} (h : canonicalComps cs = true)
    (hne : cs ≠ []) : renderComps cs ≠ [] := by
  cases cs with
  | nil => exact absurd rfl hne
  | cons c0 rest =>
    by_cases hr : c0 = PathComponent.rootDir
    · subst hr
      show ('/' :: intercalateSlash (rest.map compChars)) ≠ []
      simp
    · rw [renderComps_rel c0 rest hr]
      have hcg := canonical_head_cg h hr
      have hcc := compChars_ne_nil hcg
      intro he
      have := intercalateSlash_head? (compChars c0) (rest.map compChars) hcc
      rw [show intercalateSlash (compChars c0 :: List.map compChars rest) =
        intercalateSlash ((c0 :: rest).map compChars) from rfl] at this
      rw [he] at this
      cases hc : compChars c0 with
      | nil => exact hcc hc
      | cons x xs => rw [hc] at this; simp at this

theorem mem_map_compChars_props {cs : List PathComponent}
    (hall : ∀ c ∈ cs, c = PathComponent.curDir ∨ goodComp c = true) :
    (∀ p ∈ cs.map compChars, p ≠ []) ∧ (∀ p ∈ cs.map compChars, ∀ x ∈ p, x ≠ '/') := by
  constructor
  · intro p hp
    obtain ⟨c, hc, rfl⟩ := List.mem_map.mp hp
    exact compChars_ne_nil (hall c hc)
  · intro p hp
    obtain ⟨c, hc, rfl⟩ := List.mem_map.mp hp
    exact compChars_no_slash (hall c hc)

theorem renderComps_getLast_ne_slash {cs : List PathComponent}
    (h : canonicalComps cs = true) (hne : cs ≠ []) (hnr : cs ≠ [PathComponent.rootDir]) :
    ∃ c, (renderComps cs).getLast? = some c ∧ c ≠ '/' := by
  cases cs with
  | nil => exact absurd rfl hne
  | cons c0 rest =>
    by_cases hr : c0 = PathComponent.rootDir
    · subst hr
      cases rest with
      | nil => exact absurd rfl hnr
      | cons r1 rs =>
        have hall : (r1 :: rs).all goodComp = true := h
        have hcg : ∀ c ∈ r1 :: rs, c = PathComponent.curDir ∨ goodComp c = true :=
          fun c hc => Or.inr ((List.all_eq_true.mp hall) c hc)
        obtain ⟨hpne, hpns⟩ := mem_map_compChars_props hcg
        obtain ⟨c, hc1, hc2⟩ := intercalateSlash_getLast ((r1 :: rs).map compChars)
          (by simp) hpne hpns
        refine ⟨c, ?_, hc2⟩
        show (('/' :: intercalateSlash ((r1 :: rs).map compChars))).getLast? = some c
        have hinz : intercalateSlash ((r1 :: rs).map compChars) ≠ [] := by
          intro he
          rw [he] at hc1
          simp at hc1
        rw [show ('/' :: intercalateSlash ((r1 :: rs).map compChars)) =
          ['/'] ++ intercalateSlash ((r1 :: rs).map compChars) from rfl,
          List.getLast?_append_of_ne_nil ['/'] hinz]
        exact hc1
    · rw [renderComps_rel c0 rest hr]
      have hcg : ∀ c ∈ c0 :: rest, c = PathComponent.curDir ∨ goodComp c = true := by
        intro c hc
        rcases List.mem_cons.mp hc with h' | h'
        · subst h'; exact canonical_head_cg h hr
        · exact canonical_tail_good h c h'
      obtain ⟨hpne, hpns⟩ := mem_map_compChars_props hcg
      exact intercalateSlash_getLast ((c0 :: rest).map compChars) (by simp) hpne hpns

theorem joinChars_render {cs : List PathComponent} (name : List Char)
    (h : canonicalComps cs = true) (hne : cs ≠ [])
    (hn1 : name ≠ []) (hn2 : ∀ x ∈ name, x ≠ '/') :
    joinChars (renderComps cs) name = renderComps (cs ++ [PathComponent.normal name]) := by
  have hhead : ¬ name.head? = some '/' := by
    cases name with
    | nil => exact absurd rfl hn1
    | cons x xs =>
      intro hx
      simp only [List.head?_cons, Option.some.injEq] at hx
      exact hn2 x (List.mem_cons_self _ _) hx
  unfold joinChars
  rw [if_neg hhead, if_neg (renderComps_ne_nil h hne)]
  by_cases hroot : cs = [PathComponent.rootDir]
  · subst hroot
    have hsl : (['/'] : List Char).getLast? = some '/' := rfl
    rw [show renderComps [PathComponent.rootDir] = ['/'] from rfl, if_pos hsl]
    rfl
  · obtain ⟨c, hc1, hc2⟩ := renderComps_getLast_ne_slash h hne hroot
    rw [if_neg (by rw [hc1]; intro hx; simp only [Option.some.injEq] at hx; exact hc2 hx)]
    cases cs with
    | nil => exact absurd rfl hne
    | cons c0 rest =>
      by_cases hr : c0 = PathComponent.rootDir
      · subst hr
        cases rest with
        | nil => exact absurd rfl hroot
        | cons r1 rs =>
          show ('/' :: intercalateSlash ((r1 :: rs).map compChars)) ++ '/' :: name =
            '/' :: intercalateSlash (((r1 :: rs) ++ [PathComponent.normal name]).map compChars)
          rw [List.map_append,
            show (([PathComponent.normal name]).map compChars) = [name] from rfl,
            intercalateSlash_append_single _ name (by simp)]
          rfl
      · rw [renderComps_rel c0 rest hr,
          show (c0 :: rest) ++ [PathComponent.normal name] =
            c0 :: (rest ++ [PathComponent.normal name]) from rfl,
          renderComps_rel c0 _ hr,
          show ((c0 :: (rest ++ [PathComponent.normal name])).map compChars) =
            (c0 :: rest).map compChars ++ [name] from by simp [compChars],
          intercalateSlash_append_single _ name (by simp)]

theorem canonical_append_normal {cs : List PathComponent} (h : canonicalComps cs = true)
    {x : PathComponent} (hx : goodComp x = true) :
    canonicalComps (cs ++ [x]) = true := by
  cases cs with
  | nil =>
    exact all_goodComp_canonical (by simpa [List.all_eq_true] using hx)
  | cons c0 rest =>
    cases c0 with
    | rootDir =>
      show (rest ++ [x]).all goodComp = true
      rw [List.all_append]
      simp only [Bool.and_eq_true]
      exact ⟨h, by simpa [List.all_eq_true] using hx⟩
    | curDir =>
      show canonicalComps (PathComponent.curDir :: (rest ++ [x])) = true
      show (rest ++ [x]).all goodComp = true
      rw [List.all_append]
      simp only [Bool.and_eq_true]
      exact ⟨h, by simpa [List.all_eq_true] using hx⟩
    | parentDir =>
      refine all_goodComp_canonical ?_
      have hall : (PathComponent.parentDir :: rest).all goodComp = true := h
      rw [show (PathComponent.parentDir :: rest) ++ [x] =
        PathComponent.parentDir :: (rest ++ [x]) from rfl, List.all_cons, List.all_append]
      rw [List.all_cons] at hall
      simp only [Bool.and_eq_true] at hall ⊢
      exact ⟨hall.1, hall.2, by simpa [List.all_eq_true] using hx⟩
    | normal s =>
      refine all_goodComp_canonical ?_
      have hall : (PathComponent.normal s :: rest).all goodComp = true := h
      rw [show (PathComponent.normal s :: rest) ++ [x] =
        PathComponent.normal s :: (rest ++ [x]) from rfl, List.all_cons, List.all_append]
      rw [List.all_cons] at hall
      simp only [Bool.and_eq_true] at hall ⊢
      exact ⟨hall.1, hall.2, by simpa [List.all_eq_true] using hx⟩

theorem path_parent_mk_join {cs : List PathComponent} (h : canonicalComps cs = true)
    (hne : cs ≠ []) (name : List Char) (hn : goodComp (PathComponent.normal name) = true) :
    path_parent (String.mk (joinChars (renderComps cs) name)) =
      some (String.mk (renderComps cs)) := by
  obtain ⟨hn1, hn2, _, _⟩ := (goodComp_normal_iff name).mp hn
  rw [joinChars_render name h hne hn1 hn2]
  unfold path_parent pathComponents
  rw [show (String.mk (renderComps (cs ++ [PathComponent.normal name]))).data =
      renderComps (cs ++ [PathComponent.normal name]) from rfl,
    pathComponentsChars_render (canonical_append_normal h hn),
    List.getLast?_concat]
  show some (String.mk (renderComps (cs ++ [PathComponent.normal name]).dropLast)) = _
  rw [List.dropLast_concat]

theorem segToComp_ne_rootDir (s : List Char) : segToComp s ≠ PathComponent.rootDir := by
  unfold segToComp
  split <;> simp

theorem pathComponentsChars_no_slash (l : List Char) (h1 : l ≠ [])
    (h2 : ∀ c ∈ l, c ≠ '/') :
    pathComponentsChars l = [segToComp l] := by
  have hh : ¬ l.head? = some '/' := by
    cases hd : l with
    | nil => exact absurd hd h1
    | cons c cs =>
      intro hx
      simp only [List.head?_cons, Option.some.injEq] at hx
      exact h2 c (by rw [hd]; exact List.mem_cons_self _ _) hx
  have hsegs : (splitSlash l).filter (fun s => !s.isEmpty) = [l] := by
    rw [splitSlash_no_slash l h2]
    simp [List.isEmpty_iff, h1]
  simp only [pathComponentsChars]
  rw [if_neg hh, hsegs, show ([l].map segToComp) = [segToComp l] from rfl]
  cases hst : segToComp l with
  | rootDir => exact absurd hst (segToComp_ne_rootDir l)
  | curDir => simp [dropCurDir]
  | parentDir => simp [dropCurDir]
  | normal s => simp [dropCurDir, goodComp]

/-! ## Claim C5 -/

/-- C5 counterexample: for the bare filename `app` (an ExecutableLocation
with no directory component) artifact-path derivation does NOT fail: it
succeeds, yielding the current-directory-relative paths `perf.data` and
`perf.trace` (`Path::new("app").parent()` is `Some("")`, not `None`). -/
theorem C5_counterexample :
    derive_artifact_paths "app" ≠ none
    ∧ derive_artifact_paths "app" = some ("perf.data", "perf.trace") := by
  constructor
  · decide
  · decide

/-- C5 (amended): for an ExecutableLocation that is a bare non-empty
filename with no directory component, artifact-path derivation succeeds
deterministically: the parent resolves to the empty path and the derived
capture and trace paths are `perf.data` and `perf.trace` relative to the
current directory.  (Derivation fails only when the path has no components,
i.e. for the empty path or the filesystem root.) -/
theorem C5_amended_bare_filename_derivation_succeeds (f : String)
    (h1 : f.data ≠ []) (h2 : ∀ c ∈ f.data, c ≠ '/') :
    path_parent f = some ""
    ∧ derive_artifact_paths f = some ("perf.data", "perf.trace") := by
  have hpp : path_parent f = some "" := by
    unfold path_parent pathComponents
    rw [pathComponentsChars_no_slash f.data h1 h2]
    cases hst : segToComp f.data with
    | rootDir => exact absurd hst (segToComp_ne_rootDir f.data)
    | curDir => rfl
    | parentDir => rfl
    | normal s => rfl
  refine ⟨hpp, ?_⟩
  unfold derive_artifact_paths
  rw [hpp]
  show some (path_join "" "perf.data", path_join "" "perf.trace")
    = some ("perf.data", "perf.trace")
  rw [show path_join "" "perf.data" = "perf.data" from by decide,
    show path_join "" "perf.trace" = "perf.trace" from by decide]

/-- Witness for C5 (amended), at the bare filename `app`. -/
theorem C5_witness :
    path_parent "app" = some ""
    ∧ derive_artifact_paths "app" = some ("perf.data", "perf.trace") :=
  C5_amended_bare_filename_derivation_succeeds "app" (by decide) (by decide)

/-! ## Claim C6 -/

/-- C6: for every ExecutableLocation whose path has a non-empty parent
directory `d`, the derived capture path is `d` joined with `perf.data` and
the derived trace path is `d` joined with `perf.trace`; both derived paths
have parent exactly `d` again, so the two artifact files are siblings of
the executable in the same directory. -/
theorem C6_artifact_paths_are_siblings (exe d : String)
    (hd : path_parent exe = some d) (hne : d ≠ "") :
    derive_artifact_paths exe = some (path_join d "perf.data", path_join d "perf.trace")
    ∧ path_parent (path_join d "perf.data") = some d
    ∧ path_parent (path_join d "perf.trace") = some d := by
  have hcan : canonicalComps (pathComponents exe) = true :=
    canonical_pathComponentsChars exe.data
  have hcan' : canonicalComps (pathComponents exe).dropLast = true := canonical_dropLast hcan
  have hd' : d = String.mk (renderComps (pathComponents exe).dropLast) := by
    have hd2 := hd
    unfold path_parent at hd2
    cases hlast : (pathComponents exe).getLast? with
    | none =>
      rw [hlast] at hd2
      exact Option.noConfusion hd2
    | some lc =>
      rw [hlast] at hd2
      cases lc with
      | rootDir => exact Option.noConfusion hd2
      | curDir => exact (Option.some.inj hd2).symm
      | parentDir => exact (Option.some.inj hd2).symm
      | normal s => exact (Option.some.inj hd2).symm
  have hcsne : (pathComponents exe).dropLast ≠ [] := by
    intro he
    apply hne
    rw [hd', he]
    rfl
  subst hd'
  refine ⟨?_, ?_, ?_⟩
  · unfold derive_artifact_paths
    rw [hd]
  · show path_parent (String.mk (joinChars
      (renderComps (pathComponents exe).dropLast) ("perf.data".data))) = _
    exact path_parent_mk_join hcan' hcsne _ (by decide)
  · show path_parent (String.mk (joinChars
      (renderComps (pathComponents exe).dropLast) ("perf.trace".data))) = _
    exact path_parent_mk_join hcan' hcsne _ (by decide)

/-- Witness for C6, at the executable location `/tmp/out/app` with parent
directory `/tmp/out`. -/
theorem C6_witness :
    derive_artifact_paths "/tmp/out/app"
      = some (path_join "/tmp/out" "perf.data", path_join "/tmp/out" "perf.trace")
    ∧ path_parent (path_join "/tmp/out" "perf.data") = some "/tmp/out"
    ∧ path_parent (path_join "/tmp/out" "perf.trace") = some "/tmp/out" :=
  C6_artifact_paths_are_siblings "/tmp/out/app" "/tmp/out" (by decide) (by decide)

/-! ## The run-shape invariant -/

theorem errCount_append (a b : List Event) :
    errCount (a ++ b) = errCount a + errCount b := by
  unfold errCount
  rw [List.filter_append, List.length_append]

theorem WF_pure {α : Type} (a : α) : WF (Proc.pure a) := rfl

theorem WF_emit (e : Event) (h : isErrorEvent e = false) : WF (emit e) := by
  show errCount [e] = 0
  simp [errCount, h]

theorem WF_procExit0 {α : Type} : WF (procExit 0 : Proc α) := Or.inl ⟨rfl, rfl⟩

theorem WF_resolve {T : Type} (r : Except String T) : WF (resolve r) := by
  cases r with
  | ok t => exact rfl
  | error e =>
    refine Or.inr ⟨rfl, ?_, e, rfl⟩
    simp [errCount, isErrorEvent]

theorem WF_resolve_status (st : ExitStatus) : WF (resolve_status st) := by
  by_cases h : st.success = true
  · rw [resolve_status_success h]
    exact rfl
  · rw [resolve_status_failure (Bool.not_eq_true st.success ▸ h)]
    refine Or.inr ⟨rfl, ?_, _, rfl⟩
    simp [errCount, isErrorEvent]

theorem WF_bind {α β : Type} {p : Proc α} {f : α → Proc β}
    (hp : WF p) (hf : ∀ a, WF (f a)) : WF (p >>= f) := by
  obtain ⟨r, evs⟩ := p
  cases r with
  | error c => exact hp
  | ok a =>
    have hfa := hf a
    have hp0 : errCount evs = 0 := hp
    show WF ((f a).1, evs ++ (f a).2)
    rcases hq : f a with ⟨r', evs'⟩
    rw [hq] at hfa
    cases r' with
    | ok b =>
      have h0 : errCount evs' = 0 := hfa
      show errCount (evs ++ evs') = 0
      rw [errCount_append, hp0, h0]
    | error c =>
      rcases hfa with ⟨hc, h0⟩ | ⟨hc, h1, m, hm⟩
      · exact Or.inl ⟨hc, by rw [errCount_append, hp0, h0]⟩
      · refine Or.inr ⟨hc, by rw [errCount_append, hp0, h1], m, ?_⟩
        have hne : evs' ≠ [] := by
          intro he
          rw [he] at hm
          simp at hm
        rw [List.getLast?_append_of_ne_nil evs hne]
        exact hm

theorem WF_open_firefox_profiler (w : World) : WF (open_firefox_profiler w) := by
  unfold open_firefox_profiler
  exact WF_bind (WF_emit _ rfl) fun _ =>
    WF_bind (WF_resolve _) fun st => WF_resolve_status st

theorem WF_add_to_cargo_toml (w : World) : WF (add_to_cargo_toml w) := by
  unfold add_to_cargo_toml print_step
  exact WF_bind (WF_emit _ rfl) fun _ =>
    WF_bind (WF_resolve _) fun _ =>
      WF_bind (WF_emit _ rfl) fun _ =>
        WF_bind (WF_resolve _) fun _ => WF_emit _ rfl

theorem WF_handle_flags (w : World) (args : PProfArgs) : WF (handle_flags w args) := by
  unfold handle_flags
  split
  · exact WF_bind (WF_open_firefox_profiler w) fun _ => WF_procExit0
  · split
    · exact WF_bind (WF_add_to_cargo_toml w) fun _ => WF_procExit0
    · exact WF_pure _

theorem WF_get_executable (messages : List CompilerMessage) : WF (get_executable messages) := by
  unfold get_executable
  cases messages.getLast? with
  | some msg => exact WF_pure _
  | none => exact WF_resolve _

theorem WF_get_dir (executable : String) : WF (get_dir executable) := by
  unfold get_dir
  cases path_parent executable with
  | some d => exact WF_pure _
  | none => exact WF_resolve _

theorem WF_check_capture_status (args : PProfArgs) (st : ExitStatus) :
    WF (check_capture_status args st) := by
  unfold check_capture_status
  split
  · exact WF_resolve_status _
  · exact WF_pure _

theorem WF_main (w : World) (args : PProfArgs) : WF (main w args) := by
  unfold main print_step
  refine WF_bind (WF_handle_flags w args) fun _ => ?_
  refine WF_bind (WF_resolve _) fun cargo_path => ?_
  refine WF_bind (WF_emit _ rfl) fun _ => ?_
  refine WF_bind (WF_emit _ rfl) fun _ => ?_
  refine WF_bind (WF_resolve _) fun st => ?_
  refine WF_bind (WF_resolve_status _) fun _ => ?_
  refine WF_bind (WF_get_executable _) fun executable => ?_
  refine WF_bind (WF_get_dir _) fun dir => ?_
  refine WF_bind (WF_emit _ rfl) fun _ => ?_
  refine WF_bind (WF_emit _ rfl) fun _ => ?_
  refine WF_bind (WF_emit _ rfl) fun _ => ?_
  refine WF_bind (WF_resolve _) fun st2 => ?_
  refine WF_bind (WF_check_capture_status args st2) fun _ => ?_
  refine WF_bind (WF_emit _ rfl) fun _ => ?_
  refine WF_bind (WF_resolve _) fun _ => ?_
  refine WF_bind (WF_emit _ rfl) fun _ => ?_
  refine WF_bind (WF_emit _ rfl) fun _ => ?_
  refine WF_bind (WF_resolve _) fun st3 => ?_
  refine WF_bind (WF_resolve_status _) fun _ => ?_
  exact WF_bind (WF_emit _ rfl) fun _ => WF_emit _ rfl

/-! ## Claim C2 -/

/-- C2: for every behaviour of the outside world and every parsed argument
set, the program's own process exit code is either 0 (full success, or the
two successful early-exit flags) or 1 (any resolved fatal condition); no
other exit code is ever produced by the program itself.  In particular a
child process's numeric exit code (arbitrary in `w`) never becomes this
program's own exit code. -/
theorem C2_exit_code_always_zero_or_one (w : World) (args : PProfArgs) :
    (runMain w args).2 = 0 ∨ (runMain w args).2 = 1 := by
  have hwf := WF_main w args
  unfold runMain
  rcases hm : main w args with ⟨r, evs⟩
  rw [hm] at hwf
  cases r with
  | ok a => exact Or.inl rfl
  | error c =>
    rcases hwf with ⟨hc, _⟩ | ⟨hc, _, _⟩
    · exact Or.inl (by simp [hc])
    · exact Or.inr (by simp [hc])

/-! ## Claim C8 -/

/-- C8: when the `CARGO` environment variable is unset and neither the
open-viewer flag nor the append-snippet flag is given, the program writes
the environment-error message to stderr and exits with code 1; the event
log is exactly that one error report, so no subprocess is ever launched
(and nothing else happens). -/
theorem C8_missing_env_fatal_before_any_spawn (w : World) (args : PProfArgs)
    (h1 : args.open_firefox_profiler = false) (h2 : args.add = false)
    (h3 : w.cargoEnv = none) :
    runMain w args = ([Event.errorMsg "environment variable not found"], 1)
    ∧ ∀ p a, Event.spawn p a ∉ (runMain w args).1 := by
  have hmain : main w args
      = (Except.error 1, [Event.errorMsg "environment variable not found"]) := by
    simp [main, handle_flags, h1, h2, bind_eq_Proc_bind, Proc_bind_ok, Proc_bind_error,
      Proc.pure, resolve, env_var_CARGO, h3]
  have hrun : runMain w args = ([Event.errorMsg "environment variable not found"], 1) := by
    unfold runMain
    rw [hmain]
  refine ⟨hrun, ?_⟩
  intro p a hmem
  rw [hrun] at hmem
  simp at hmem

/-- Witness for C8: the concrete no-`CARGO` world. -/
theorem C8_witness :
    runMain demo_world_no_env (demo_args false false false)
      = ([Event.errorMsg "environment variable not found"], 1)
    ∧ ∀ p a, Event.spawn p a ∉ (runMain demo_world_no_env (demo_args false false false)).1 :=
  C8_missing_env_fatal_before_any_spawn demo_world_no_env (demo_args false false false)
    rfl rfl rfl

/-! ## Claim C4 -/

/-- C4: if the build stage's subprocess terminates non-successfully, the
run is exactly: announce the build step, attempt the build subprocess,
report the failure — and exit with code 1.  In particular the only spawn
event is the build tool's, so neither the capture nor the convert
subprocess is ever invoked. -/
theorem C4_build_failure_stops_pipeline (w : World) (args : PProfArgs) (cp : String)
    (st : ExitStatus)
    (h1 : args.open_firefox_profiler = false) (h2 : args.add = false)
    (h3 : w.cargoEnv = some cp)
    (h4 : w.run cp build_args = Except.ok st) (h5 : st.success = false) :
    runMain w args = ([Event.eprintln ("\n=> " ++ "Building binary"),
      Event.spawn cp build_args,
      Event.errorMsg (status_error_msg st)], 1)
    ∧ ∀ p a, Event.spawn p a ∈ (runMain w args).1 → p = cp ∧ a = build_args := by
  have hmain : main w args = (Except.error 1,
      [Event.eprintln ("\n=> " ++ "Building binary"),
       Event.spawn cp build_args,
       Event.errorMsg (status_error_msg st)]) := by
    simp [main, handle_flags, h1, h2, bind_eq_Proc_bind, Proc_bind_ok, Proc_bind_error,
      Proc.pure, resolve, env_var_CARGO, h3, print_step, emit, h4,
      resolve_status_failure h5]
  have hrun : runMain w args = ([Event.eprintln ("\n=> " ++ "Building binary"),
      Event.spawn cp build_args,
      Event.errorMsg (status_error_msg st)], 1) := by
    unfold runMain
    rw [hmain]
  refine ⟨hrun, ?_⟩
  intro p a hmem
  rw [hrun] at hmem
  simp at hmem
  exact hmem

/-- Witness for C4: the build tool exits with code 101; nothing after the
build spawn happens and the program exits 1. -/
theorem C4_witness :
    runMain (demo_world ⟨some 101⟩ ⟨some 0⟩ ⟨some 0⟩) (demo_args false false false)
      = ([Event.eprintln ("\n=> " ++ "Building binary"),
          Event.spawn "/usr/bin/cargo" build_args,
          Event.errorMsg (status_error_msg ⟨some 101⟩)], 1)
    ∧ ∀ p a, Event.spawn p a
        ∈ (runMain (demo_world ⟨some 101⟩ ⟨some 0⟩ ⟨some 0⟩) (demo_args false false false)).1
        → p = "/usr/bin/cargo" ∧ a = build_args :=
  C4_build_failure_stops_pipeline (demo_world ⟨some 101⟩ ⟨some 0⟩ ⟨some 0⟩)
    (demo_args false false false) "/usr/bin/cargo" ⟨some 101⟩ rfl rfl rfl rfl (by decide)

/-! ## Claim C7 -/

/-- C7: when the build succeeds but no build-output line parses as a
record (in particular for an empty output), the Build-Event Parser yields
nothing, and the pipeline reports `Could not find executable` and exits
with code 1 without launching any further subprocess. -/
theorem C7_no_executable_is_fatal (w : World) (args : PProfArgs) (cp : String)
    (st : ExitStatus)
    (h1 : args.open_firefox_profiler = false) (h2 : args.add = false)
    (h3 : w.cargoEnv = some cp)
    (h4 : w.run cp build_args = Except.ok st) (h5 : st.success = true)
    (h6 : ∀ l ∈ w.buildStdout, w.parse l = none) :
    findExecutable w.parse w.buildStdout = none
    ∧ runMain w args = ([Event.eprintln ("\n=> " ++ "Building binary"),
        Event.spawn cp build_args,
        Event.errorMsg "Could not find executable"], 1) := by
  have hfm : List.filterMap w.parse w.buildStdout = [] :=
    List.filterMap_eq_nil_iff.mpr h6
  constructor
  · unfold findExecutable
    rw [hfm]
    rfl
  · have hmain : main w args = (Except.error 1,
        [Event.eprintln ("\n=> " ++ "Building binary"),
         Event.spawn cp build_args,
         Event.errorMsg "Could not find executable"]) := by
      simp [main, handle_flags, h1, h2, bind_eq_Proc_bind, Proc_bind_ok, Proc_bind_error,
        Proc.pure, resolve, env_var_CARGO, h3, print_step, emit, h4,
        resolve_status_success h5, hfm, get_executable]
    unfold runMain
    rw [hmain]

/-- Witness for C7: a build emitting only unparsable lines. -/
theorem C7_witness :
    findExecutable demo_world_no_exe.parse demo_world_no_exe.buildStdout = none
    ∧ runMain demo_world_no_exe (demo_args false false false)
      = ([Event.eprintln ("\n=> " ++ "Building binary"),
          Event.spawn "/usr/bin/cargo" build_args,
          Event.errorMsg "Could not find executable"], 1) :=
  C7_no_executable_is_fatal demo_world_no_exe (demo_args false false false)
    "/usr/bin/cargo" ⟨some 0⟩ rfl rfl rfl rfl (by decide) (by decide)

/-! ## Claim C3 -/

/-- C3: in a run where the build succeeds (yielding executable
`msg.executable` with parent directory `d`) and the profiled program under
`perf record` exits non-successfully, the behaviour depends exactly on
`ignore_exit`: if it is not set, the run stops with exit code 1 and the
convert stage's subprocess is never spawned; if it is set, the convert
stage still runs and (conversion succeeding) the program's own exit code
is 0. -/
theorem C3_ignore_exit_controls_convert_stage (w : World) (args : PProfArgs)
    (cp : String) (stB stP stS : ExitStatus) (msg : CompilerMessage) (d : String)
    (h1 : args.open_firefox_profiler = false) (h2 : args.add = false)
    (h3 : w.cargoEnv = some cp)
    (h4 : w.run cp build_args = Except.ok stB) (h5 : stB.success = true)
    (h6 : (List.filterMap w.parse w.buildStdout).getLast? = some msg)
    (h7 : path_parent msg.executable = some d)
    (h8 : w.run "perf" (perf_record_args (path_join d "perf.data") msg.executable args.app_args)
        = Except.ok stP)
    (h9 : stP.success = false)
    (h10 : w.createFile (path_join d "perf.trace") = Except.ok ())
    (h11 : w.run "perf" (perf_script_args (path_join d "perf.data")) = Except.ok stS)
    (h12 : stS.success = true) :
    (args.ignore_exit = false →
      runMain w args = ([Event.eprintln ("\n=> " ++ "Building binary"),
        Event.spawn cp build_args,
        Event.eprintln ("Binary found: " ++ msg.executable),
        Event.eprintln ("\n=> " ++ "Running program with perf"),
        Event.spawn "perf"
          (perf_record_args (path_join d "perf.data") msg.executable args.app_args),
        Event.errorMsg (status_error_msg stP)], 1)
      ∧ Event.spawn "perf" (perf_script_args (path_join d "perf.data"))
          ∉ (runMain w args).1)
    ∧ (args.ignore_exit = true →
      runMain w args = ([Event.eprintln ("\n=> " ++ "Building binary"),
        Event.spawn cp build_args,
        Event.eprintln ("Binary found: " ++ msg.executable),
        Event.eprintln ("\n=> " ++ "Running program with perf"),
        Event.spawn "perf"
          (perf_record_args (path_join d "perf.data") msg.executable args.app_args),
        Event.eprintln ("\n=> " ++ "Converting data to trace format"),
        Event.fileCreate (path_join d "perf.trace"),
        Event.spawn "perf" (perf_script_args (path_join d "perf.data")),
        Event.println ("Trace file: " ++ path_join d "perf.trace"),
        Event.println
          "This file can be viewed using the Firefox Profiler (https://profiler.firefox.com)"],
        0)
      ∧ Event.spawn "perf" (perf_script_args (path_join d "perf.data"))
          ∈ (runMain w args).1) := by
  constructor
  · intro hig
    have hmain : main w args = (Except.error 1,
        [Event.eprintln ("\n=> " ++ "Building binary"),
         Event.spawn cp build_args,
         Event.eprintln ("Binary found: " ++ msg.executable),
         Event.eprintln ("\n=> " ++ "Running program with perf"),
         Event.spawn "perf"
           (perf_record_args (path_join d "perf.data") msg.executable args.app_args),
         Event.errorMsg (status_error_msg stP)]) := by
      simp [main, handle_flags, h1, h2, bind_eq_Proc_bind, Proc_bind_ok, Proc_bind_error,
        Proc.pure, resolve, env_var_CARGO, h3, print_step, emit, h4,
        resolve_status_success h5, h6, get_executable, get_dir, h7, h8,
        check_capture_status, hig, resolve_status_failure h9]
    have hrun : runMain w args = ([Event.eprintln ("\n=> " ++ "Building binary"),
        Event.spawn cp build_args,
        Event.eprintln ("Binary found: " ++ msg.executable),
        Event.eprintln ("\n=> " ++ "Running program with perf"),
        Event.spawn "perf"
          (perf_record_args (path_join d "perf.data") msg.executable args.app_args),
        Event.errorMsg (status_error_msg stP)], 1) := by
      unfold runMain
      rw [hmain]
    refine ⟨hrun, ?_⟩
    rw [hrun]
    simp [perf_record_args, perf_script_args, build_args]
  · intro hig
    have hmain : main w args = (Except.ok (),
        [Event.eprintln ("\n=> " ++ "Building binary"),
         Event.spawn cp build_args,
         Event.eprintln ("Binary found: " ++ msg.executable),
         Event.eprintln ("\n=> " ++ "Running program with perf"),
         Event.spawn "perf"
           (perf_record_args (path_join d "perf.data") msg.executable args.app_args),
         Event.eprintln ("\n=> " ++ "Converting data to trace format"),
         Event.fileCreate (path_join d "perf.trace"),
         Event.spawn "perf" (perf_script_args (path_join d "perf.data")),
         Event.println ("Trace file: " ++ path_join d "perf.trace"),
         Event.println
           "This file can be viewed using the Firefox Profiler (https://profiler.firefox.com)"]) := by
      simp [main, handle_flags, h1, h2, bind_eq_Proc_bind, Proc_bind_ok, Proc_bind_error,
        Proc.pure, resolve, env_var_CARGO, h3, print_step, emit, h4,
        resolve_status_success h5, h6, get_executable, get_dir, h7, h8,
        check_capture_status, hig, h10, h11, resolve_status_success h12]
    have hrun : runMain w args = ([Event.eprintln ("\n=> " ++ "Building binary"),
        Event.spawn cp build_args,
        Event.eprintln ("Binary found: " ++ msg.executable),
        Event.eprintln ("\n=> " ++ "Running program with perf"),
        Event.spawn "perf"
          (perf_record_args (path_join d "perf.data") msg.executable args.app_args),
        Event.eprintln ("\n=> " ++ "Converting data to trace format"),
        Event.fileCreate (path_join d "perf.trace"),
        Event.spawn "perf" (perf_script_args (path_join d "perf.data")),
        Event.println ("Trace file: " ++ path_join d "perf.trace"),
        Event.println
          "This file can be viewed using the Firefox Profiler (https://profiler.firefox.com)"],
        0) := by
      unfold runMain
      rw [hmain]
    refine ⟨hrun, ?_⟩
    rw [hrun]
    simp

/-- Witness for C3: the profiled program exits with code 3 under the
capture stage.  Without `ignore_exit` the run exits 1 and never spawns the
converter; with `ignore_exit` the converter runs and the program exits 0. -/
theorem C3_witness :
    ((runMain (demo_world ⟨some 0⟩ ⟨some 3⟩ ⟨some 0⟩) (demo_args false false false)).2 = 1
      ∧ Event.spawn "perf" (perf_script_args (path_join "/tmp/out" "perf.data"))
        ∉ (runMain (demo_world ⟨some 0⟩ ⟨some 3⟩ ⟨some 0⟩) (demo_args false false false)).1)
    ∧ ((runMain (demo_world ⟨some 0⟩ ⟨some 3⟩ ⟨some 0⟩) (demo_args false false true)).2 = 0
      ∧ Event.spawn "perf" (perf_script_args (path_join "/tmp/out" "perf.data"))
        ∈ (runMain (demo_world ⟨some 0⟩ ⟨some 3⟩ ⟨some 0⟩) (demo_args false false true)).1) := by
  have hf := C3_ignore_exit_controls_convert_stage
    (demo_world ⟨some 0⟩ ⟨some 3⟩ ⟨some 0⟩) (demo_args false false false)
    "/usr/bin/cargo" ⟨some 0⟩ ⟨some 3⟩ ⟨some 0⟩ ⟨"/tmp/out/app"⟩ "/tmp/out"
    rfl rfl rfl rfl (by decide) (by decide) (by decide) rfl (by decide)
    rfl rfl (by decide)
  have ht := C3_ignore_exit_controls_convert_stage
    (demo_world ⟨some 0⟩ ⟨some 3⟩ ⟨some 0⟩) (demo_args false false true)
    "/usr/bin/cargo" ⟨some 0⟩ ⟨some 3⟩ ⟨some 0⟩ ⟨"/tmp/out/app"⟩ "/tmp/out"
    rfl rfl rfl rfl (by decide) (by decide) (by decide) rfl (by decide)
    rfl rfl (by decide)
  refine ⟨⟨?_, (hf.1 rfl).2⟩, ⟨?_, (ht.2 rfl).2⟩⟩
  · rw [(hf.1 rfl).1]
  · rw [(ht.2 rfl).1]

/-! ## Claim C9 -/

/-- C9 counterexample: in a run where the build tool is `/usr/bin/cargo`
and the *capture* stage's tool `perf` is the failing subprocess (the
profiled program exits 2), the single error report is the text `Cargo
returned with exit code 2`: the word `perf` does not occur in it, so the
message does not identify which stage's tool failed — it names the build
tool regardless. -/
theorem C9_counterexample :
    (runMain (demo_world ⟨some 0⟩ ⟨some 2⟩ ⟨some 0⟩) (demo_args false false false)).1.getLast?
      = some (Event.errorMsg "Cargo returned with exit code 2")
    ∧ Event.spawn "perf"
        (perf_record_args (path_join "/tmp/out" "perf.data") "/tmp/out/app" [])
        ∈ (runMain (demo_world ⟨some 0⟩ ⟨some 2⟩ ⟨some 0⟩) (demo_args false false false)).1
    ∧ ¬ ("perf".data <:+: ("Cargo returned with exit code 2").data) := by
  refine ⟨by decide, by decide, by decide⟩

/-- C9 (amended): every fatal failure is reported exactly once, to the
error stream, before the process terminates with exit code 1 (and a run
that exits 0 reports no error at all); but the message for a failing
subprocess is the fixed `Cargo returned with exit code {k}` text of
`resolve_status`, which reports the child's numeric code while always
naming Cargo, regardless of which stage's tool actually failed. -/
theorem C9_amended_single_report_fixed_cargo_text :
    (∀ (w : World) (args : PProfArgs),
      ((runMain w args).2 = 1 →
        errCount (runMain w args).1 = 1 ∧ endsWithError (runMain w args).1)
      ∧ ((runMain w args).2 = 0 → errCount (runMain w args).1 = 0))
    ∧ (∀ (w : World) (args : PProfArgs) (cp : String) (stB : ExitStatus)
        (msg : CompilerMessage) (d : String) (k : Int),
        args.open_firefox_profiler = false → args.add = false → args.ignore_exit = false →
        w.cargoEnv = some cp →
        w.run cp build_args = Except.ok stB → stB.success = true →
        (List.filterMap w.parse w.buildStdout).getLast? = some msg →
        path_parent msg.executable = some d →
        w.run "perf" (perf_record_args (path_join d "perf.data") msg.executable args.app_args)
          = Except.ok ⟨some k⟩ →
        k ≠ 0 →
        (runMain w args).1.getLast?
          = some (Event.errorMsg ("Cargo returned with exit code " ++ toString k))
        ∧ errCount (runMain w args).1 = 1
        ∧ (runMain w args).2 = 1) := by
  constructor
  · intro w args
    have hwf := WF_main w args
    unfold runMain
    rcases hm : main w args with ⟨r, evs⟩
    rw [hm] at hwf
    cases r with
    | ok a =>
      constructor
      · intro h
        simp at h
      · intro _
        exact hwf
    | error c =>
      rcases hwf with ⟨hc, h0⟩ | ⟨hc, h1, hend⟩
      · subst hc
        constructor
        · intro h
          simp at h
        · intro _
          exact h0
      · subst hc
        constructor
        · intro _
          exact ⟨h1, hend⟩
        · intro h
          simp at h
  · intro w args cp stB msg d k h1 h2 hig h3 h4 h5 h6 h7 h8 hk
    have h9 : (ExitStatus.mk (some k)).success = false := by
      simp [ExitStatus.success, hk]
    have hmain : main w args = (Except.error 1,
        [Event.eprintln ("\n=> " ++ "Building binary"),
         Event.spawn cp build_args,
         Event.eprintln ("Binary found: " ++ msg.executable),
         Event.eprintln ("\n=> " ++ "Running program with perf"),
         Event.spawn "perf"
           (perf_record_args (path_join d "perf.data") msg.executable args.app_args),
         Event.errorMsg ("Cargo returned with exit code " ++ toString k)]) := by
      simp [main, handle_flags, h1, h2, bind_eq_Proc_bind, Proc_bind_ok, Proc_bind_error,
        Proc.pure, resolve, env_var_CARGO, h3, print_step, emit, h4,
        resolve_status_success h5, h6, get_executable, get_dir, h7, h8,
        check_capture_status, hig, resolve_status_failure h9, status_error_msg]
    have hrun : runMain w args = ([Event.eprintln ("\n=> " ++ "Building binary"),
        Event.spawn cp build_args,
        Event.eprintln ("Binary found: " ++ msg.executable),
        Event.eprintln ("\n=> " ++ "Running program with perf"),
        Event.spawn "perf"
          (perf_record_args (path_join d "perf.data") msg.executable args.app_args),
        Event.errorMsg ("Cargo returned with exit code " ++ toString k)], 1) := by
      unfold runMain
      rw [hmain]
    rw [hrun]
    refine ⟨by simp, ?_, rfl⟩
    simp [errCount, isErrorEvent]

/-- Witness for C9 (amended): the concrete capture-failure run exits 1
with exactly one error report, the fixed Cargo text carrying code 2. -/
theorem C9_witness :
    (runMain (demo_world ⟨some 0⟩ ⟨some 2⟩ ⟨some 0⟩) (demo_args false false false)).1.getLast?
      = some (Event.errorMsg ("Cargo returned with exit code " ++ toString (2 : Int)))
    ∧ errCount (runMain (demo_world ⟨some 0⟩ ⟨some 2⟩ ⟨some 0⟩)
        (demo_args false false false)).1 = 1
    ∧ (runMain (demo_world ⟨some 0⟩ ⟨some 2⟩ ⟨some 0⟩) (demo_args false false false)).2 = 1 :=
  C9_amended_single_report_fixed_cargo_text.2
    (demo_world ⟨some 0⟩ ⟨some 2⟩ ⟨some 0⟩) (demo_args false false false)
    "/usr/bin/cargo" ⟨some 0⟩ ⟨"/tmp/out/app"⟩ "/tmp/out" 2
    rfl rfl rfl rfl rfl (by decide) (by decide) (by decide) rfl (by decide)

/-! ## Claim C10 -/

/-- C10: when both the open-firefox-profiler flag and the append-snippet
flag are set, the viewer branch takes precedence: whatever the world does,
the run never appends to `Cargo.toml` (or any file), never creates a file,
and the only subprocess ever spawned is `firefox` on the viewer URL — so
no build, capture, or convert subprocess is invoked. -/
theorem C10_open_viewer_takes_precedence (w : World) (args : PProfArgs)
    (h1 : args.open_firefox_profiler = true) (_h2 : args.add = true) :
    (∀ p c, Event.fileAppend p c ∉ (runMain w args).1)
    ∧ (∀ p, Event.fileCreate p ∉ (runMain w args).1)
    ∧ (∀ p a, Event.spawn p a ∈ (runMain w args).1 →
        p = "firefox" ∧ a = ["https://profiler.firefox.com"]) := by
  have key : ∀ e ∈ (runMain w args).1,
      e = Event.spawn "firefox" ["https://profiler.firefox.com"]
      ∨ ∃ m, e = Event.errorMsg m := by
    rcases hr : w.run "firefox" ["https://profiler.firefox.com"] with e0 | st
    · have hmain : main w args = (Except.error 1,
          [Event.spawn "firefox" ["https://profiler.firefox.com"], Event.errorMsg e0]) := by
        simp [main, handle_flags, h1, bind_eq_Proc_bind, Proc_bind_ok, Proc_bind_error,
          Proc.pure, open_firefox_profiler, emit, resolve, hr, procExit]
      intro e he
      rw [show (runMain w args).1
          = [Event.spawn "firefox" ["https://profiler.firefox.com"], Event.errorMsg e0] from by
        unfold runMain; rw [hmain]] at he
      rcases List.mem_cons.mp he with h | h
      · exact Or.inl h
      · simp at h
        exact Or.inr ⟨e0, h⟩
    · by_cases hs : st.success = true
      · have hmain : main w args = (Except.error 0,
            [Event.spawn "firefox" ["https://profiler.firefox.com"]]) := by
          simp [main, handle_flags, h1, bind_eq_Proc_bind, Proc_bind_ok, Proc_bind_error,
            Proc.pure, open_firefox_profiler, emit, resolve, hr,
            resolve_status_success hs, procExit]
        intro e he
        rw [show (runMain w args).1
            = [Event.spawn "firefox" ["https://profiler.firefox.com"]] from by
          unfold runMain; rw [hmain]] at he
        simp at he
        exact Or.inl he
      · have hs' : st.success = false := Bool.not_eq_true st.success ▸ hs
        have hmain : main w args = (Except.error 1,
            [Event.spawn "firefox" ["https://profiler.firefox.com"],
             Event.errorMsg (status_error_msg st)]) := by
          simp [main, handle_flags, h1, bind_eq_Proc_bind, Proc_bind_ok, Proc_bind_error,
            Proc.pure, open_firefox_profiler, emit, resolve, hr,
            resolve_status_failure hs', procExit]
        intro e he
        rw [show (runMain w args).1
            = [Event.spawn "firefox" ["https://profiler.firefox.com"],
               Event.errorMsg (status_error_msg st)] from by
          unfold runMain; rw [hmain]] at he
        rcases List.mem_cons.mp he with h | h
        · exact Or.inl h
        · simp at h
          exact Or.inr ⟨_, h⟩
  refine ⟨?_, ?_, ?_⟩
  · intro p c hmem
    rcases key _ hmem with h | ⟨m, h⟩ <;> simp at h
  · intro p hmem
    rcases key _ hmem with h | ⟨m, h⟩ <;> simp at h
  · intro p a hmem
    rcases key _ hmem with h | ⟨m, h⟩
    · simp at h
      exact h
    · simp at h

/-- Witness for C10, at a concrete world and both flags set. -/
theorem C10_witness :
    (∀ p c, Event.fileAppend p c
      ∉ (runMain (demo_world ⟨some 0⟩ ⟨some 0⟩ ⟨some 0⟩) (demo_args true true false)).1)
    ∧ (∀ p, Event.fileCreate p
      ∉ (runMain (demo_world ⟨some 0⟩ ⟨some 0⟩ ⟨some 0⟩) (demo_args true true false)).1)
    ∧ (∀ p a, Event.spawn p a
        ∈ (runMain (demo_world ⟨some 0⟩ ⟨some 0⟩ ⟨some 0⟩) (demo_args true true false)).1 →
        p = "firefox" ∧ a = ["https://profiler.firefox.com"]) :=
  C10_open_viewer_takes_precedence (demo_world ⟨some 0⟩ ⟨some 0⟩ ⟨some 0⟩)
    (demo_args true true false) rfl rfl
